import Mathlib

/-
  Verification development for the swift-code-api repository.

  The repository stores SWIFT/BIC bank-identifier records and serves them
  over HTTP.  This file gives a shallow embedding of the parts of the code
  that carry the domain rules:

  * swift_api/schemas.py   — the pydantic validation of caller input,
  * swift_api/crud.py      — the repository operations over the store,
  * swift_api/parser.py    — the per-row cleaning of the bulk ingestion,
  * swift_api/routers/swift_codes.py — the four endpoint handlers.

  Strings are modelled as lists of characters (`Str`), the database table
  as a list of records in insertion order.  SQLAlchemy queries become list
  operations: `.first()` is `List.find?` or `List.head?` of the filtered
  list, `.offset(skip).limit(limit).all()` is `drop skip` then `take limit`
  of the filtered list, and the primary-key uniqueness violation raised at
  commit time (IntegrityError) is modelled by checking for a stored record
  with the same code.  A commit that fails for any other storage reason is
  modelled by an explicit `commitOk` flag passed to the delete operation.
-/

/-- Strings of the Python program are modelled as lists of characters. -/
abbrev Str := List Char

namespace SwiftApi

/-- The three-character suffix XXX that marks a headquarters code. -/
def strXXX : Str := ['X', 'X', 'X']

/-- Embedding of the Python method str.upper restricted to the ASCII case
mapping, which is the only part the data of this program exercises: a
lowercase ASCII letter moves down by 32 code points, anything else is kept. -/
def pyCharUpper (c : Char) : Char :=
  if 97 ≤ c.toNat ∧ c.toNat ≤ 122 then Char.ofNat (c.toNat - 32) else c

/-- Embedding of str.upper on whole strings. -/
def pyUpper (s : Str) : Str := s.map pyCharUpper

/-- Embedding of str.startswith. -/
def pyStartsWith : Str → Str → Bool
  | _, [] => true
  | [], _ :: _ => false
  | c :: s, p :: ps => c == p && pyStartsWith s ps

/-- Embedding of str.endswith: the reversed suffix starts the reversed string. -/
def pyEndsWith (s suffix : Str) : Bool := pyStartsWith s.reverse suffix.reverse

/-- Character class A-Z, as matched by the regexes of schemas.py. -/
def isUpperAZ (c : Char) : Bool := 65 ≤ c.toNat && c.toNat ≤ 90

/-- Character class 0-9, as matched by the regexes of schemas.py. -/
def isDigit09 (c : Char) : Bool := 48 ≤ c.toNat && c.toNat ≤ 57

/-- Character class A-Z0-9 of the swift-code regex in schemas.py. -/
def isUpperAlnum (c : Char) : Bool := isUpperAZ c || isDigit09 c

/-- Embedding of models.SwiftCode, one row of the swift_codes table.
The address column is nullable, every other column is required. -/
structure SwiftRecord where
  swift_code : Str
  bank_name : Str
  address : Option Str
  country_iso2 : Str
  country_name : Str
  is_headquarter : Bool
deriving DecidableEq, Repr

/-- Embedding of schemas.SwiftCodeCreate, the payload of the create
operation.  The caller may supply is_headquarter but crud.create_swift
never reads it. -/
structure SwiftCodeCreate where
  swift_code : Str
  bank_name : Str
  address : Option Str
  country_iso2 : Str
  country_name : Str
  is_headquarter : Option Bool
deriving DecidableEq, Repr

/-- Embedding of crud.get_swift_by_code: exact match on the uppercased
code, `.first()` of the filtered query. -/
def get_swift_by_code (db : List SwiftRecord) (swift_code : Str) :
    Option SwiftRecord :=
  db.find? (fun r => r.swift_code == pyUpper swift_code)

/-- Embedding of crud.get_swifts_by_country: filter on the uppercased
country code, then offset and limit. -/
def get_swifts_by_country (db : List SwiftRecord) (country_iso2 : Str)
    (skip limit : Nat) : List SwiftRecord :=
  (((db.filter (fun r => r.country_iso2 == pyUpper country_iso2)).drop skip).take limit)

/-- Embedding of the branch query of crud.py: an empty result for a head
string whose length is not 8, otherwise every stored record whose code
starts with the uppercased head string and whose is_headquarter is false. -/
def get_branches_by_hq_pre (db : List SwiftRecord) (hq_pre : Str) :
    List SwiftRecord :=
  if hq_pre.length ≠ 8 then []
  else db.filter
    (fun r => pyStartsWith r.swift_code (pyUpper hq_pre) && (r.is_headquarter == false))

/-- The row built by crud.create_swift before it is committed: codes and
country fields uppercased, is_headquarter recomputed from the uppercased
code suffix, the caller-supplied flag ignored. -/
def createdRecord (swift : SwiftCodeCreate) : SwiftRecord :=
  { swift_code := pyUpper swift.swift_code
    bank_name := swift.bank_name
    address := swift.address
    country_iso2 := pyUpper swift.country_iso2
    country_name := pyUpper swift.country_name
    is_headquarter := pyEndsWith (pyUpper swift.swift_code) strXXX }

/-- Embedding of crud.create_swift.  The commit raises IntegrityError when
the primary key (the code) already exists; the function then rolls back and
returns none, otherwise the new row is stored and returned. -/
def create_swift (db : List SwiftRecord) (swift : SwiftCodeCreate) :
    List SwiftRecord × Option SwiftRecord :=
  let db_swift := createdRecord swift
  if db.any (fun r => r.swift_code == db_swift.swift_code) then (db, none)
  else (db ++ [db_swift], some db_swift)

/-- Embedding of crud.delete_swift.  The lookup uppercases the code; when
the row is found, the commit may fail for a storage reason (`commitOk`
false), in which case the function rolls back and returns none exactly as
in the not-found case. -/
def delete_swift (db : List SwiftRecord) (swift_code : Str) (commitOk : Bool) :
    List SwiftRecord × Option SwiftRecord :=
  match get_swift_by_code db swift_code with
  | some db_swift =>
      if commitOk then (db.erase db_swift, some db_swift) else (db, none)
  | none => (db, none)

/-- Embedding of the validator check_swift_code_chars_and_length of
schemas.py: length exactly 8 or 11, then the full-match regex on A-Z0-9.
The Field bounds (min length 8, max length 11) are subsumed by the length
check. -/
def check_swift_code_chars_and_length (value : Str) : Bool :=
  (value.length == 8 || value.length == 11) && value.all isUpperAlnum

/-- Embedding of the validator check_country_iso2_format of schemas.py:
length exactly 2 and the full-match regex on A-Z. -/
def check_country_iso2_format (value : Str) : Bool :=
  (value.length == 2) && value.all isUpperAZ

/-- Embedding of pydantic validation of a SwiftCodeCreate payload.  The
mode-before validator convert_to_uppercase uppercases country_iso2 and
country_name only — the swift_code field is validated exactly as supplied.
The after-validators then check the swift code and the uppercased country
code; bank_name and country_name only need to be present. -/
def validate_swift_create (raw : SwiftCodeCreate) : Option SwiftCodeCreate :=
  let cc := pyUpper raw.country_iso2
  let cn := pyUpper raw.country_name
  if check_swift_code_chars_and_length raw.swift_code && check_country_iso2_format cc then
    some { raw with country_iso2 := cc, country_name := cn }
  else none

/-- One raw row of the bulk-ingestion source after the column mapping of
parser.py, all five fields already strings (NaN filled with the empty
string). -/
structure RawRow where
  country_iso2 : Str
  swift_code : Str
  bank_name : Str
  address : Str
  country_name : Str
deriving DecidableEq, Repr

/-- One cleaned row produced by parser.parse_swift_data, with the derived
is_headquarter flag. -/
structure ParsedRow where
  country_iso2 : Str
  swift_code : Str
  bank_name : Str
  address : Str
  country_name : Str
  is_headquarter : Bool
deriving DecidableEq, Repr

/-- Embedding of the per-row cleaning and filtering of
parser.parse_swift_data: uppercase the code and the country fields, derive
is_headquarter from the XXX suffix of the uppercased code, keep the row
only when the code length is 8 or 11, the country code length is 2, and
none of the essential fields is the empty string. -/
def parse_row (row : RawRow) : Option ParsedRow :=
  let swift_code := pyUpper row.swift_code
  let country_iso2 := pyUpper row.country_iso2
  let country_name := pyUpper row.country_name
  let is_hq := pyEndsWith swift_code strXXX
  if (swift_code.length == 8 || swift_code.length == 11)
      && (country_iso2.length == 2)
      && !swift_code.isEmpty && !country_iso2.isEmpty
      && !country_name.isEmpty && !row.bank_name.isEmpty then
    some ⟨country_iso2, swift_code, row.bank_name, row.address, country_name, is_hq⟩
  else none

/-- The three distinct error signals the endpoint handlers raise: 404
not found, 400 duplicate-code conflict, 500 database error. -/
inductive ApiError
  | notFound
  | conflict
  | serverError
deriving DecidableEq, Repr

/-- Embedding of schemas.SwiftCodeBranch, the reduced branch view embedded
in a headquarters response (country_name deliberately absent). -/
structure SwiftCodeBranchView where
  swift_code : Str
  bank_name : Str
  address : Option Str
  country_iso2 : Str
  is_headquarter : Bool
deriving DecidableEq, Repr

/-- Projection of a stored record to the branch view. -/
def branchView (r : SwiftRecord) : SwiftCodeBranchView :=
  ⟨r.swift_code, r.bank_name, r.address, r.country_iso2, r.is_headquarter⟩

/-- Shape of a get-by-code response: a headquarters record with its
embedded branches list, or a plain branch record with no branches field. -/
inductive ReadResult
  | hq (record : SwiftRecord) (branches : List SwiftCodeBranchView)
  | branch (record : SwiftRecord)
deriving DecidableEq, Repr

/-- Embedding of the endpoint read_swift_code of routers/swift_codes.py:
look up by code, 404 when absent; for a record whose stored flag marks it
a headquarters, fetch the branch list for the first 8 characters of the
stored code and embed it. -/
def read_swift_code (db : List SwiftRecord) (swift_code : Str) :
    Except ApiError ReadResult :=
  match get_swift_by_code db swift_code with
  | none => .error .notFound
  | some db_swift =>
      if db_swift.is_headquarter then
        .ok (.hq db_swift
          ((get_branches_by_hq_pre db (db_swift.swift_code.take 8)).map branchView))
      else .ok (.branch db_swift)

/-- Embedding of schemas.SwiftCodeCountryList, the get-by-country response. -/
structure SwiftCodeCountryList where
  country_iso2 : Str
  country_name : Str
  swift_codes : List SwiftRecord
deriving DecidableEq, Repr

/-- Embedding of the endpoint read_swifts_by_country: fetch the page; a
non-empty page takes the country name from its first record; an empty page
resolves the name from the first stored record of that country when one
exists, else 404. -/
def read_swifts_by_country (db : List SwiftRecord) (country_iso2_code : Str)
    (skip limit : Nat) : Except ApiError SwiftCodeCountryList :=
  let ccU := pyUpper country_iso2_code
  match get_swifts_by_country db ccU skip limit with
  | m :: rest => .ok ⟨ccU, m.country_name, m :: rest⟩
  | [] =>
      match (db.filter (fun r => r.country_iso2 == ccU)).head? with
      | some r => .ok ⟨ccU, r.country_name, []⟩
      | none => .error .notFound

/-- Embedding of the endpoint create_swift_code: a stored record with the
same code yields the 400 conflict; otherwise crud.create_swift runs and a
none result (a commit failure) yields the 500 error. -/
def create_swift_code (db : List SwiftRecord) (swift_data : SwiftCodeCreate) :
    List SwiftRecord × Except ApiError SwiftRecord :=
  match get_swift_by_code db swift_data.swift_code with
  | some _ => (db, .error .conflict)
  | none =>
      match create_swift db swift_data with
      | (db2, some created) => (db2, .ok created)
      | (db2, none) => (db2, .error .serverError)

/-- Embedding of the endpoint delete_swift_code: a none result of
crud.delete_swift — whether the record was absent or the commit failed —
becomes the one 404 response. -/
def delete_swift_code (db : List SwiftRecord) (swift_code : Str)
    (commitOk : Bool) : List SwiftRecord × Except ApiError Unit :=
  match delete_swift db swift_code commitOk with
  | (db2, some _) => (db2, .ok ())
  | (db2, none) => (db2, .error .notFound)

/-- Modelled from the spec: record b is a branch of headquarters h iff
h.code ends in XXX, h.code has length 11, b.code agrees with h.code on the
first 8 characters, and b.isHeadquarters is false.  This definition
follows the wording of the specification, not the source, and exists only
to be compared against the branch list the source computes. -/
def specBranchOf (h b : SwiftRecord) : Bool :=
  pyEndsWith h.swift_code strXXX && (h.swift_code.length == 11)
    && (b.swift_code.take 8 == h.swift_code.take 8) && (b.is_headquarter == false)

/-- A code the validation admits: length 8 or 11, characters A-Z0-9. -/
def validCode (s : Str) : Bool :=
  (s.length == 8 || s.length == 11) && s.all isUpperAlnum

/-- A stored row as the create operation produces it: the code is an
admitted uppercase code and the stored flag agrees with the XXX suffix. -/
def WFRecord (r : SwiftRecord) : Prop :=
  validCode r.swift_code = true ∧
  r.is_headquarter = pyEndsWith r.swift_code strXXX

/-- A store every row of which was produced by the create operation: each
row is well formed and the code column, being the primary key, holds no
duplicates. -/
def WFdb (db : List SwiftRecord) : Prop :=
  (∀ r ∈ db, WFRecord r) ∧ db.Pairwise (fun a b => a.swift_code ≠ b.swift_code)

/-- Well-formedness of a record is a decidable conjunction of equations. -/
instance (r : SwiftRecord) : Decidable (WFRecord r) :=
  decidable_of_iff (validCode r.swift_code = true ∧
    r.is_headquarter = pyEndsWith r.swift_code strXXX) Iff.rfl

/-- Equality of endpoint results is decidable componentwise. -/
instance exceptDecidableEq {e a : Type} [DecidableEq e] [DecidableEq a] :
    DecidableEq (Except e a) := fun x y =>
  match x, y with
  | .ok v, .ok w =>
      if h : v = w then isTrue (by rw [h]) else isFalse (fun hc => h (by injection hc))
  | .error v, .error w =>
      if h : v = w then isTrue (by rw [h]) else isFalse (fun hc => h (by injection hc))
  | .ok _, .error _ => isFalse (fun hc => Except.noConfusion hc)
  | .error _, .ok _ => isFalse (fun hc => Except.noConfusion hc)

/-- Example code TESTHQ01XXX of the round-trip scenario of the spec. -/
def exCodeHQ : Str := ['T', 'E', 'S', 'T', 'H', 'Q', '0', '1', 'X', 'X', 'X']

/-- Example bank name. -/
def exBank : Str := ['T', 'e', 's', 't', ' ', 'B', 'a', 'n', 'k']

/-- Example country code TS. -/
def exTS : Str := ['T', 'S']

/-- Example country name Testland as a caller would supply it. -/
def exTestland : Str := ['T', 'e', 's', 't', 'l', 'a', 'n', 'd']

/-- Example country name Testland in its stored uppercase form. -/
def exTESTLAND : Str := ['T', 'E', 'S', 'T', 'L', 'A', 'N', 'D']

/-- Example create payload of the round-trip scenario, with a
caller-supplied is_headquarter flag of false that must be ignored. -/
def exCreate : SwiftCodeCreate :=
  ⟨exCodeHQ, exBank, none, exTS, exTestland, some false⟩

/-- The validated form of the example payload: country fields uppercased. -/
def exValidated : SwiftCodeCreate :=
  ⟨exCodeHQ, exBank, none, exTS, exTESTLAND, some false⟩

/-- A second create payload reusing the code of the example payload. -/
def exCreate2 : SwiftCodeCreate :=
  ⟨exCodeHQ, ['O', 't', 'h', 'e', 'r'], none, exTS, exTestland, none⟩

/-- Example raw bulk-ingestion row. -/
def exRow : RawRow := ⟨exTS, exCodeHQ, exBank, [], exTestland⟩

/-- The cleaned row the parser produces from the example raw row. -/
def exParsed : ParsedRow := ⟨exTS, exCodeHQ, exBank, [], exTESTLAND, true⟩

/-- A lowercase eight-character code whose uppercased form is a valid code. -/
def lowCode : Str := ['t', 'e', 's', 't', 'h', 'q', '0', '1']

/-- An eight-character headquarters record: its code ends in XXX. -/
def c2hq : SwiftRecord :=
  ⟨['A', 'B', 'C', 'D', 'E', 'X', 'X', 'X'], exBank, none, exTS, exTESTLAND, true⟩

/-- An eleven-character non-headquarters record sharing its whole first 8
characters with the code of the eight-character headquarters. -/
def c2br : SwiftRecord :=
  ⟨['A', 'B', 'C', 'D', 'E', 'X', 'X', 'X', '1', '2', '3'], exBank, none, exTS,
    exTESTLAND, false⟩

/-- Store holding the eight-character headquarters and its lookalike. -/
def c2db : List SwiftRecord := [c2hq, c2br]

/-- Headquarters ABCDEFGHXXX of the branch scenario of the spec. -/
def scHQ : SwiftRecord :=
  ⟨['A', 'B', 'C', 'D', 'E', 'F', 'G', 'H', 'X', 'X', 'X'], exBank, none, exTS,
    exTESTLAND, true⟩

/-- Branch ABCDEFGHB01 of the branch scenario. -/
def scB1 : SwiftRecord :=
  ⟨['A', 'B', 'C', 'D', 'E', 'F', 'G', 'H', 'B', '0', '1'], exBank, none, exTS,
    exTESTLAND, false⟩

/-- Branch ABCDEFGHB02 of the branch scenario. -/
def scB2 : SwiftRecord :=
  ⟨['A', 'B', 'C', 'D', 'E', 'F', 'G', 'H', 'B', '0', '2'], exBank, none, exTS,
    exTESTLAND, false⟩

/-- Unrelated record ABCDEFGIB01 of the branch scenario: different head. -/
def scOther : SwiftRecord :=
  ⟨['A', 'B', 'C', 'D', 'E', 'F', 'G', 'I', 'B', '0', '1'], exBank, none, exTS,
    exTESTLAND, false⟩

/-- Store of the branch scenario. -/
def scDb : List SwiftRecord := [scHQ, scB1, scB2, scOther]

/-- A record of country TS named after the letter A. -/
def c10a : SwiftRecord :=
  ⟨['N', 'A', 'M', 'E', 'A', 'A', '0', '1'], exBank, none, exTS,
    ['A', 'L', 'A', 'N', 'D'], false⟩

/-- A record of country TS carrying a different country name. -/
def c10b : SwiftRecord :=
  ⟨['N', 'A', 'M', 'E', 'B', 'B', '0', '1'], exBank, none, exTS,
    ['B', 'L', 'A', 'N', 'D'], false⟩

/-- Store whose two records of one country disagree on the country name. -/
def c10db : List SwiftRecord := [c10a, c10b]

/-- Conversion of a valid code point back to its numeric value. -/
theorem toNat_ofNat_valid (n : Nat) (h : n.isValidChar) : (Char.ofNat n).toNat = n := by
  simp [Char.ofNat, h, Char.ofNatAux, Char.toNat, UInt32.toNat]

/-- Uppercasing a character twice is the same as uppercasing it once. -/
theorem pyCharUpper_idem (c : Char) : pyCharUpper (pyCharUpper c) = pyCharUpper c := by
  by_cases h : 97 ≤ c.toNat ∧ c.toNat ≤ 122
  · have hv : (c.toNat - 32).isValidChar := by left; omega
    have h1 : pyCharUpper c = Char.ofNat (c.toNat - 32) := by
      unfold pyCharUpper; rw [if_pos h]
    rw [h1]
    have h2 : ¬ (97 ≤ (Char.ofNat (c.toNat - 32)).toNat ∧
        (Char.ofNat (c.toNat - 32)).toNat ≤ 122) := by
      rw [toNat_ofNat_valid _ hv]; omega
    unfold pyCharUpper; rw [if_neg h2]
  · have h1 : pyCharUpper c = c := by unfold pyCharUpper; rw [if_neg h]
    rw [h1, h1]

/-- Uppercasing fixes the characters of the class A-Z0-9. -/
theorem pyCharUpper_fix (c : Char) (h : isUpperAlnum c = true) : pyCharUpper c = c := by
  have : ¬ (97 ≤ c.toNat ∧ c.toNat ≤ 122) := by
    simp [isUpperAlnum, isUpperAZ, isDigit09] at h
    omega
  unfold pyCharUpper; rw [if_neg this]

/-- Uppercasing a string twice is the same as uppercasing it once. -/
theorem pyUpper_idem (s : Str) : pyUpper (pyUpper s) = pyUpper s := by
  unfold pyUpper
  rw [List.map_map]
  exact List.map_congr_left (fun c _ => pyCharUpper_idem c)

/-- Uppercasing fixes a string drawn from the class A-Z0-9. -/
theorem pyUpper_fix (s : Str) (h : s.all isUpperAlnum = true) : pyUpper s = s := by
  unfold pyUpper
  rw [List.all_eq_true] at h
  calc s.map pyCharUpper = s.map id :=
        List.map_congr_left (fun c hc => pyCharUpper_fix c (h c hc))
    _ = s := List.map_id s

/-- A string starts with p exactly when its first p.length characters are p. -/
theorem pyStartsWith_iff_take (s p : Str) :
    pyStartsWith s p = true ↔ s.take p.length = p := by
  induction p generalizing s with
  | nil => simp [pyStartsWith]
  | cons q qs ih =>
      cases s with
      | nil => simp [pyStartsWith]
      | cons c cs =>
          simp [pyStartsWith, ih, List.take_succ_cons]

/-- Concatenating the drop-take pagination windows of size k, in order,
restores the underlying list whenever the windows cover its length. -/
theorem windows_flatten {α : Type} (k : Nat) :
    ∀ (m : Nat) (l : List α), l.length ≤ m * k →
      (List.map (fun i => (l.drop (i * k)).take k) (List.range m)).flatten = l := by
  intro m
  induction m with
  | zero =>
      intro l hl
      simp at hl
      simp [hl]
  | succ m ih =>
      intro l hl
      have h2 : (l.drop k).length ≤ m * k := by
        rw [List.length_drop]
        rw [Nat.succ_mul] at hl
        omega
      rw [List.range_succ_eq_map, List.map_cons, List.map_map]
      have h1 : List.map ((fun i => (l.drop (i * k)).take k) ∘ Nat.succ) (List.range m)
          = List.map (fun i => ((l.drop k).drop (i * k)).take k) (List.range m) :=
        List.map_congr_left (fun i _ => by
          simp [Function.comp_apply, List.drop_drop, Nat.succ_mul, Nat.add_comm])
      rw [h1]
      simp only [Nat.zero_mul, List.drop_zero, List.flatten_cons]
      rw [ih (l.drop k) h2]
      exact List.take_append_drop k l

/-- Claim C1: every record written through the create operation carries an
is_headquarter flag equal to whether its stored code ends in XXX — the
result of crud.create_swift does not depend on the caller-supplied flag at
all, every row it stores satisfies the equivalence, and so does every row
the bulk parser derives. -/
theorem claim_C1_hq_flag_derived :
    (∀ (db : List SwiftRecord) (s : SwiftCodeCreate) (b : Option Bool),
        create_swift db { s with is_headquarter := b } = create_swift db s) ∧
    (∀ (db db2 : List SwiftRecord) (s : SwiftCodeCreate) (r : SwiftRecord),
        create_swift db s = (db2, some r) →
        r.is_headquarter = pyEndsWith r.swift_code strXXX) ∧
    (∀ (row : RawRow) (p : ParsedRow), parse_row row = some p →
        p.is_headquarter = pyEndsWith p.swift_code strXXX) := by
  refine ⟨fun db s b => rfl, fun db db2 s r h => ?_, fun row p h => ?_⟩
  · simp only [create_swift] at h
    split at h
    · simp at h
    · rw [Prod.mk.injEq, Option.some.injEq] at h
      rw [← h.2]
      rfl
  · simp only [parse_row] at h
    split at h
    · rw [Option.some.injEq] at h
      rw [← h]
    · simp at h

/-- Witness for claim C1 at the concrete example payload and raw row. -/
theorem claim_C1_hq_flag_derived_witness :
    (createdRecord exCreate).is_headquarter
        = pyEndsWith (createdRecord exCreate).swift_code strXXX ∧
    exParsed.is_headquarter = pyEndsWith exParsed.swift_code strXXX :=
  ⟨claim_C1_hq_flag_derived.2.1 [] [createdRecord exCreate] exCreate
      (createdRecord exCreate) (by decide),
    claim_C1_hq_flag_derived.2.2 exRow exParsed (by decide)⟩

/-- Claim C3 (amended): the swift-code validator accepts a code exactly
when its length is 8 or 11 and every character, exactly as supplied, lies
in the class A-Z0-9; and a create payload passes validation exactly when
its code passes this check and its uppercased country code passes the
country check.  No uppercasing is applied to the code field, so a
lowercase code is rejected even when its uppercased form would be valid. -/
theorem claim_C3_code_charset :
    (∀ v : Str, check_swift_code_chars_and_length v = true ↔
      ((v.length = 8 ∨ v.length = 11) ∧ ∀ c ∈ v, isUpperAlnum c = true)) ∧
    (∀ raw : SwiftCodeCreate, (validate_swift_create raw).isSome = true ↔
      (check_swift_code_chars_and_length raw.swift_code = true ∧
        check_country_iso2_format (pyUpper raw.country_iso2) = true)) := by
  constructor
  · intro v
    simp [check_swift_code_chars_and_length, List.all_eq_true]
  · intro raw
    simp only [validate_swift_create]
    split <;> simp_all [Bool.and_eq_true]

/-- Counterexample to claim C3 as stated: the lowercase code testhq01 has
length 8 and its uppercased form consists only of characters in A-Z0-9,
yet the validator rejects it (and a payload carrying it fails validation),
so acceptance is not determined by the uppercased form of the code. -/
theorem claim_C3_counterexample :
    check_swift_code_chars_and_length lowCode = false ∧
    lowCode.length = 8 ∧
    (pyUpper lowCode).all isUpperAlnum = true ∧
    validate_swift_create ⟨lowCode, exBank, none, exTS, exTestland, none⟩ = none := by
  decide

/-- A search that fails on the first list continues into the second. -/
theorem find?_append_of_none {α : Type} (p : α → Bool) (l1 l2 : List α)
    (h : l1.find? p = none) : (l1 ++ l2).find? p = l2.find? p := by
  induction l1 with
  | nil => rfl
  | cons a t ih =>
      rw [List.find?_eq_none] at h
      rw [List.cons_append, List.find?_cons_of_neg _ (h a (by simp))]
      exact ih (List.find?_eq_none.mpr (fun x hx => h x (by simp [hx])))

/-- In a store without duplicate codes, the exact-match search for the code
of a stored record finds that record. -/
theorem find?_code_of_mem (db : List SwiftRecord) (r : SwiftRecord)
    (hu : db.Pairwise (fun a b => a.swift_code ≠ b.swift_code)) (hmem : r ∈ db) :
    db.find? (fun x => x.swift_code == r.swift_code) = some r := by
  induction db with
  | nil => cases hmem
  | cons a t ih =>
      rw [List.pairwise_cons] at hu
      cases hmem with
      | head => exact List.find?_cons_of_pos _ (by simp)
      | tail _ hmemt =>
          rw [List.find?_cons_of_neg _ (by simp [hu.1 r hmemt])]
          exact ih hu.2 hmemt

/-- Claim C6: validating a payload, creating it on a store free of its
code, and fetching by its code returns a record with the same bank name
and address, the country code and country name in canonical uppercase
form, and the is_headquarter flag derived from the code — independent of
the create-time flag, which the conclusion never mentions. -/
theorem claim_C6_round_trip (db : List SwiftRecord) (raw s : SwiftCodeCreate)
    (hv : validate_swift_create raw = some s)
    (habs : ∀ r ∈ db, r.swift_code ≠ pyUpper raw.swift_code) :
    get_swift_by_code (create_swift db s).1 s.swift_code =
      some { swift_code := pyUpper raw.swift_code
             bank_name := raw.bank_name
             address := raw.address
             country_iso2 := pyUpper raw.country_iso2
             country_name := pyUpper raw.country_name
             is_headquarter := pyEndsWith (pyUpper raw.swift_code) strXXX } := by
  simp only [validate_swift_create] at hv
  split at hv
  · rw [Option.some.injEq] at hv
    subst hv
    have hany : (db.any fun x =>
        x.swift_code == (createdRecord { raw with
          country_iso2 := pyUpper raw.country_iso2
          country_name := pyUpper raw.country_name }).swift_code) = false :=
      List.any_eq_false.mpr (fun x hx => by simpa [createdRecord] using habs x hx)
    have hnone : (db.find? fun x => x.swift_code == pyUpper raw.swift_code) = none :=
      List.find?_eq_none.mpr (fun x hx => by simpa using habs x hx)
    simp only [create_swift, hany, Bool.false_eq_true, if_false]
    unfold get_swift_by_code
    rw [show ({ raw with
          country_iso2 := pyUpper raw.country_iso2
          country_name := pyUpper raw.country_name } : SwiftCodeCreate).swift_code
        = raw.swift_code from rfl]
    rw [find?_append_of_none _ _ _ hnone]
    rw [List.find?_cons_of_pos _ (by simp [createdRecord])]
    simp [createdRecord, pyUpper_idem]
  · exact absurd hv (by simp)

/-- Witness for claim C6 at the round-trip scenario of the spec: code
TESTHQ01XXX, country TS, country name Testland supplied in mixed case. -/
theorem claim_C6_round_trip_witness :
    get_swift_by_code (create_swift [] exValidated).1 exValidated.swift_code =
      some { swift_code := pyUpper exCreate.swift_code
             bank_name := exCreate.bank_name
             address := exCreate.address
             country_iso2 := pyUpper exCreate.country_iso2
             country_name := pyUpper exCreate.country_name
             is_headquarter := pyEndsWith (pyUpper exCreate.swift_code) strXXX } :=
  claim_C6_round_trip [] exCreate exValidated (by decide) (by simp)

/-- Claim C7: on a store free of the code, the create endpoint succeeds
and appends the derived record; on any store holding the code, a create
with the same code yields the conflict signal — an error distinct from the
not-found signal — and leaves the store untouched, so the record of the
first call is still what the lookup returns. -/
theorem claim_C7_create_conflict (db : List SwiftRecord) (s s2 : SwiftCodeCreate)
    (hcode : pyUpper s2.swift_code = pyUpper s.swift_code)
    (habs : ∀ r ∈ db, r.swift_code ≠ pyUpper s.swift_code) :
    create_swift_code db s = (db ++ [createdRecord s], .ok (createdRecord s)) ∧
    (∀ db2 : List SwiftRecord, (∃ r ∈ db2, r.swift_code = pyUpper s.swift_code) →
        create_swift_code db2 s2 = (db2, .error .conflict)) ∧
    ApiError.conflict ≠ ApiError.notFound ∧
    get_swift_by_code (db ++ [createdRecord s]) s2.swift_code
        = some (createdRecord s) := by
  have hnone : (db.find? fun x => x.swift_code == pyUpper s.swift_code) = none :=
    List.find?_eq_none.mpr (fun x hx => by simpa using habs x hx)
  refine ⟨?_, ?_, by decide, ?_⟩
  · have hany : (db.any fun x => x.swift_code == (createdRecord s).swift_code) = false :=
      List.any_eq_false.mpr (fun x hx => by simpa [createdRecord] using habs x hx)
    simp only [create_swift_code, get_swift_by_code, hnone, create_swift, hany,
      Bool.false_eq_true, if_false]
  · intro db2 hex
    obtain ⟨r, hr, hrc⟩ := hex
    have hsome : (get_swift_by_code db2 s2.swift_code).isSome = true := by
      unfold get_swift_by_code
      rw [List.find?_isSome]
      exact ⟨r, hr, by simp [hcode, hrc]⟩
    obtain ⟨r0, hr0⟩ := Option.isSome_iff_exists.mp hsome
    simp only [create_swift_code, hr0]
  · unfold get_swift_by_code
    rw [hcode, find?_append_of_none _ _ _ hnone]
    exact List.find?_cons_of_pos _ (by simp [createdRecord])

/-- Witness for claim C7: creating TESTHQ01XXX on the empty store succeeds;
a second create payload with the same code then draws the conflict signal,
the store keeps its single record, and the lookup still returns it. -/
theorem claim_C7_create_conflict_witness :
    create_swift_code [] exValidated
        = ([createdRecord exValidated], .ok (createdRecord exValidated)) ∧
    create_swift_code [createdRecord exValidated] exCreate2
        = ([createdRecord exValidated], .error .conflict) ∧
    get_swift_by_code [createdRecord exValidated] exCreate2.swift_code
        = some (createdRecord exValidated) := by
  have h := claim_C7_create_conflict [] exValidated exCreate2 (by decide) (by simp)
  exact ⟨by simpa using h.1, h.2.1 [createdRecord exValidated] (by decide),
    by simpa using h.2.2.2⟩

/-- Claim C8: the delete endpoint answers not-found both when no record
with the code exists and when the record exists but the commit of its
removal fails; the two failures produce the same response, and the success
response occurs exactly when the record exists and the commit completes. -/
theorem claim_C8_delete_folds_failures (db : List SwiftRecord) (code : Str)
    (commitOk : Bool) :
    (get_swift_by_code db code = none →
        delete_swift_code db code commitOk = (db, .error .notFound)) ∧
    (∀ r, get_swift_by_code db code = some r →
        delete_swift_code db code false = (db, .error .notFound)) ∧
    ((delete_swift_code db code commitOk).2 = .ok () ↔
        commitOk = true ∧ (get_swift_by_code db code).isSome = true) := by
  refine ⟨fun h => ?_, fun r h => ?_, ?_⟩
  · simp [delete_swift_code, delete_swift, h]
  · simp [delete_swift_code, delete_swift, h]
  · cases hg : get_swift_by_code db code <;> cases commitOk <;>
      simp [delete_swift_code, delete_swift, hg]

/-- Witness for claim C8: deleting an absent code and deleting a present
code under a failing commit both return the store unchanged with the same
not-found error. -/
theorem claim_C8_delete_folds_failures_witness :
    delete_swift_code c2db ['N', 'O', 'C', 'O', 'D', 'E', '0', '1'] true
        = (c2db, .error .notFound) ∧
    delete_swift_code c2db c2hq.swift_code false = (c2db, .error .notFound) :=
  ⟨(claim_C8_delete_folds_failures c2db
        ['N', 'O', 'C', 'O', 'D', 'E', '0', '1'] true).1 (by decide),
    (claim_C8_delete_folds_failures c2db c2hq.swift_code true).2.1 c2hq (by decide)⟩

/-- Claim C9: the repository operations get_swift_by_code and delete_swift
treat a code and its uppercased form alike, because both uppercase the
code before the exact-match query. -/
theorem claim_C9_repo_case_insensitive (db : List SwiftRecord) (c : Str)
    (commitOk : Bool) :
    get_swift_by_code db c = get_swift_by_code db (pyUpper c) ∧
    delete_swift db c commitOk = delete_swift db (pyUpper c) commitOk := by
  have h := pyUpper_idem c
  constructor
  · unfold get_swift_by_code
    rw [h]
  · unfold delete_swift get_swift_by_code
    rw [h]

/-- Claim C2 (amended): on a well-formed store, fetching a stored
headquarters record returns as branches exactly the stored records whose
code agrees with the headquarters code on the first 8 characters and
whose stored flag is false.  The length-11 side of the spec relation is
not enforced by the source — an 8-character headquarters also lists such
records — but whenever the headquarters code has length 11 the computed
list coincides with the relation the spec states. -/
theorem claim_C2_branch_list (db : List SwiftRecord) (hrec : SwiftRecord)
    (hwf : WFdb db) (hmem : hrec ∈ db) (hhq : hrec.is_headquarter = true) :
    read_swift_code db hrec.swift_code =
      .ok (.hq hrec ((db.filter (fun b =>
          (b.swift_code.take 8 == hrec.swift_code.take 8)
            && (b.is_headquarter == false))).map branchView)) ∧
    (hrec.swift_code.length = 11 →
      db.filter (fun b => (b.swift_code.take 8 == hrec.swift_code.take 8)
          && (b.is_headquarter == false))
        = db.filter (fun b => specBranchOf hrec b)) := by
  obtain ⟨hwfr, hu⟩ := hwf
  have hvc : validCode hrec.swift_code = true := (hwfr hrec hmem).1
  rw [validCode, Bool.and_eq_true, Bool.or_eq_true, beq_iff_eq, beq_iff_eq] at hvc
  have hlen := hvc.1
  have hall := hvc.2
  have hfix : pyUpper hrec.swift_code = hrec.swift_code := pyUpper_fix _ hall
  have hget : get_swift_by_code db hrec.swift_code = some hrec := by
    unfold get_swift_by_code
    rw [hfix]
    exact find?_code_of_mem db hrec hu hmem
  have htlen : (hrec.swift_code.take 8).length = 8 := by
    rw [List.length_take]
    omega
  have htall : (hrec.swift_code.take 8).all isUpperAlnum = true :=
    List.all_eq_true.mpr
      (fun c hc => List.all_eq_true.mp hall c (List.take_subset _ _ hc))
  have htfix : pyUpper (hrec.swift_code.take 8) = hrec.swift_code.take 8 :=
    pyUpper_fix _ htall
  have hpt : ∀ b : SwiftRecord, pyStartsWith b.swift_code (hrec.swift_code.take 8)
      = (b.swift_code.take 8 == hrec.swift_code.take 8) := by
    intro b
    rw [Bool.eq_iff_iff, pyStartsWith_iff_take, htlen, beq_iff_eq]
  have hbr : get_branches_by_hq_pre db (hrec.swift_code.take 8)
      = db.filter (fun b => (b.swift_code.take 8 == hrec.swift_code.take 8)
          && (b.is_headquarter == false)) := by
    unfold get_branches_by_hq_pre
    rw [htlen, htfix]
    simp only [ne_eq, not_true_eq_false, if_false]
    exact List.filter_congr (fun b _ => by rw [hpt b])
  constructor
  · simp only [read_swift_code, hget, hhq, if_true, hbr]
  · intro h11
    have hxxx : pyEndsWith hrec.swift_code strXXX = true := by
      rw [← (hwfr hrec hmem).2]
      exact hhq
    exact List.filter_congr (fun b _ => by simp [specBranchOf, hxxx, h11])

/-- Witness for claim C2 at the branch scenario of the spec: fetching
headquarters ABCDEFGHXXX from the store holding it, its two branches
ABCDEFGHB01 and ABCDEFGHB02 and the unrelated ABCDEFGIB01 returns exactly
the two branches. -/
theorem claim_C2_branch_list_witness :
    read_swift_code scDb scHQ.swift_code
        = .ok (.hq scHQ [branchView scB1, branchView scB2]) := by
  have h := claim_C2_branch_list scDb scHQ ⟨by decide, by decide⟩
    (by decide) (by decide)
  rw [h.1]
  decide

/-- Counterexample to claim C2 as stated: the well-formed store holding
the 8-character headquarters ABCDEXXX and the 11-character record
ABCDEXXX123 shows a fetch of the headquarters embedding that record as a
branch, although the spec relation — which requires the headquarters code
to have length 11 — relates no record to this headquarters. -/
theorem claim_C2_counterexample :
    read_swift_code c2db c2hq.swift_code = .ok (.hq c2hq [branchView c2br]) ∧
    specBranchOf c2hq c2br = false ∧
    (∀ r ∈ c2db, WFRecord r) ∧
    c2db.Pairwise (fun a b => a.swift_code ≠ b.swift_code) := by
  decide

/-- Claim C4: when some stored record carries the country code but the
requested page is empty, the get-by-country endpoint still succeeds, with
the country name of a stored record of that country and an empty list;
when no stored record carries the country code, it answers not-found. -/
theorem claim_C4_country_page (db : List SwiftRecord) (cc : Str)
    (skip limit : Nat) :
    ((∃ r ∈ db, r.country_iso2 = pyUpper cc) →
      get_swifts_by_country db (pyUpper cc) skip limit = [] →
      ∃ r ∈ db, r.country_iso2 = pyUpper cc ∧
        read_swifts_by_country db cc skip limit
          = .ok ⟨pyUpper cc, r.country_name, []⟩) ∧
    ((∀ r ∈ db, r.country_iso2 ≠ pyUpper cc) →
      read_swifts_by_country db cc skip limit = .error .notFound) := by
  constructor
  · intro hex hwin
    obtain ⟨r, hr, hrc⟩ := hex
    have hne : (db.filter fun x => x.country_iso2 == pyUpper cc) ≠ [] := by
      intro hemp
      have hmem : r ∈ db.filter fun x => x.country_iso2 == pyUpper cc :=
        List.mem_filter.mpr ⟨hr, by simp [hrc]⟩
      rw [hemp] at hmem
      cases hmem
    obtain ⟨r0, hr0⟩ : ∃ r0,
        (db.filter fun x => x.country_iso2 == pyUpper cc).head? = some r0 := by
      cases hh : (db.filter fun x => x.country_iso2 == pyUpper cc).head? with
      | none => exact absurd (List.head?_eq_none_iff.mp hh) hne
      | some r0 => exact ⟨r0, rfl⟩
    have hr0f := List.mem_filter.mp (List.mem_of_mem_head? hr0)
    refine ⟨r0, hr0f.1, by simpa using hr0f.2, ?_⟩
    simp only [read_swifts_by_country]
    rw [hwin, hr0]
  · intro hall
    have hf1 : (db.filter fun x => x.country_iso2 == pyUpper cc) = [] :=
      List.filter_eq_nil_iff.mpr (fun x hx => by simpa using hall x hx)
    have hwin : get_swifts_by_country db (pyUpper cc) skip limit = [] := by
      unfold get_swifts_by_country
      rw [pyUpper_idem, hf1]
      simp
    simp only [read_swifts_by_country]
    rw [hwin, hf1]
    rfl

/-- Witness for claim C4: country TS has stored records but the window
skipping 5 is empty, so the response is success with an empty list; on the
empty store the same request answers not-found. -/
theorem claim_C4_country_page_witness :
    (∃ r ∈ scDb, r.country_iso2 = pyUpper exTS ∧
        read_swifts_by_country scDb exTS 5 100
          = .ok ⟨pyUpper exTS, r.country_name, []⟩) ∧
    read_swifts_by_country [] exTS 0 100 = .error .notFound :=
  ⟨(claim_C4_country_page scDb exTS 5 100).1 (by decide) (by decide),
    (claim_C4_country_page [] exTS 0 100).2 (by simp)⟩

/-- Claim C5: the country query is a deterministic window over the stored
list filtered by country — the store is modelled as a stable ordered list —
so the non-overlapping windows of size k starting at 0, k, 2k, …
concatenate, in order, to exactly the full filtered list whenever they
cover its length: every record of the country appears exactly once. -/
theorem claim_C5_pagination (db : List SwiftRecord) (cc : Str) (k m : Nat)
    (hcover : (db.filter fun r => r.country_iso2 == pyUpper cc).length ≤ m * k) :
    (List.map (fun i => get_swifts_by_country db cc (i * k) k)
        (List.range m)).flatten
      = db.filter fun r => r.country_iso2 == pyUpper cc := by
  unfold get_swifts_by_country
  exact windows_flatten k m _ hcover

/-- Witness for claim C5: the four TS records of the branch scenario are
recovered exactly by two windows of size two. -/
theorem claim_C5_pagination_witness :
    (List.map (fun i => get_swifts_by_country scDb exTS (i * 2) 2)
        (List.range 2)).flatten
      = scDb.filter fun r => r.country_iso2 == pyUpper exTS :=
  claim_C5_pagination scDb exTS 2 2 (by decide)

/-- Claim C10: a successful get-by-country response copies its country
name from a stored record of that country: from the first record of the
page when the page is non-empty, otherwise from the first stored record
with that country code; in every case some stored record of the country
carries the reported name, and nothing else canonicalizes it. -/
theorem claim_C10_country_name_source (db : List SwiftRecord) (cc : Str)
    (skip limit : Nat) (res : SwiftCodeCountryList)
    (hok : read_swifts_by_country db cc skip limit = .ok res) :
    (∀ m rest, get_swifts_by_country db (pyUpper cc) skip limit = m :: rest →
        res.country_name = m.country_name) ∧
    (get_swifts_by_country db (pyUpper cc) skip limit = [] →
        ∃ r, (db.filter fun x => x.country_iso2 == pyUpper cc).head? = some r ∧
          res.country_name = r.country_name) ∧
    ∃ r ∈ db, r.country_iso2 = pyUpper cc ∧ res.country_name = r.country_name := by
  simp only [read_swifts_by_country] at hok
  cases hwin : get_swifts_by_country db (pyUpper cc) skip limit with
  | cons m rest =>
      rw [hwin] at hok
      rw [Except.ok.injEq] at hok
      refine ⟨fun m2 rest2 h2 => ?_, fun hemp => absurd hemp (by simp), ?_⟩
      · injection h2 with h2a _
        rw [← hok, h2a]
      · have hm : m ∈ get_swifts_by_country db (pyUpper cc) skip limit := by
          rw [hwin]
          exact List.mem_cons_self m rest
        unfold get_swifts_by_country at hm
        have hm2 := List.mem_filter.mp ((List.drop_subset _ _) ((List.take_subset _ _) hm))
        refine ⟨m, hm2.1, ?_, by rw [← hok]⟩
        have hmc := hm2.2
        rw [pyUpper_idem] at hmc
        simpa using hmc
  | nil =>
      rw [hwin] at hok
      cases hh : (db.filter fun x => x.country_iso2 == pyUpper cc).head? with
      | none =>
          rw [hh] at hok
          exact absurd hok (by simp)
      | some r0 =>
          rw [hh] at hok
          rw [Except.ok.injEq] at hok
          have hr0 := List.mem_filter.mp (List.mem_of_mem_head? hh)
          refine ⟨fun m2 rest2 h2 => absurd h2 (by simp),
            fun _ => ⟨r0, rfl, by rw [← hok]⟩,
            ⟨r0, hr0.1, by simpa using hr0.2, by rw [← hok]⟩⟩

/-- Witness for claim C10: with two stored TS records named ALAND and
BLAND, the page starting at 0 reports the name of the first and the page
starting at 1 reports the name of the second — the reported name follows
whichever record the query returns first. -/
theorem claim_C10_country_name_source_witness :
    (∃ r ∈ c10db, r.country_iso2 = pyUpper exTS ∧
        (SwiftCodeCountryList.mk (pyUpper exTS) c10a.country_name c10db).country_name
          = r.country_name) ∧
    (∃ r ∈ c10db, r.country_iso2 = pyUpper exTS ∧
        (SwiftCodeCountryList.mk (pyUpper exTS) c10b.country_name [c10b]).country_name
          = r.country_name) ∧
    c10a.country_name ≠ c10b.country_name :=
  ⟨(claim_C10_country_name_source c10db exTS 0 100
      ⟨pyUpper exTS, c10a.country_name, c10db⟩ (by decide)).2.2,
    (claim_C10_country_name_source c10db exTS 1 100
      ⟨pyUpper exTS, c10b.country_name, [c10b]⟩ (by decide)).2.2,
    by decide⟩

end SwiftApi
